import Mathlib

set_option maxRecDepth 8000

/-!
Verification of the U-Boot lwIP `wget` client (`net/lwip/wget.c`).

C strings are embedded as `List Char` (the characters before the NUL
terminator); machine integers as `Nat` with explicit bounds or `% 2 ^ 64`
where `ulong` overflow could matter.  Fallible functions return
`Except`/`Option`.  Each definition mirrors one C function of the source
file; the callback-driven download loop is embedded as explicit state
passing over an environment that supplies the collaborator outcomes
(network interface creation, request initiation, per-iteration callback
effects and the Ctrl-C flag).
-/

namespace Wget

/-- Bool test that the first list is an initial segment of the second
(mirrors C `strncmp(s, pat, strlen(pat)) == 0` / `strstr(s, pat) == s`). -/
def leadsWith : List Char → List Char → Bool
  | [], _ => true
  | _ :: _, [] => false
  | a :: as, b :: bs => a == b && leadsWith as bs

/-- Split a char list at the first character satisfying `p` (mirrors C
`strchr`): the part before the match, the matched character, and the part
after it; `none` when no character matches. -/
def splitAtFirst (p : Char → Bool) : List Char → Option (List Char × Char × List Char)
  | [] => none
  | c :: cs =>
    if p c then some ([], c, cs)
    else
      match splitAtFirst p cs with
      | none => none
      | some (b, m, a) => some (c :: b, m, a)

/-- The characters of the literal `"http://"`. -/
def schemeChars : List Char := ['h', 't', 't', 'p', ':', '/', '/']

/-- The characters of the literal `"http"`. -/
def httpChars : List Char := ['h', 't', 't', 'p']

/-- `strstr(url, "http://")` followed by `p += strlen("http://")`: the suffix
of the input right after the first occurrence of `"http://"`, if any. -/
def findHttp : List Char → Option (List Char)
  | [] => none
  | c :: cs =>
    if leadsWith schemeChars (c :: cs) then some ((c :: cs).drop 7)
    else findHttp cs

/-- Modelled from the spec: the decimal number parser used for the port
(`simple_strtol(p, &pp, 10)`, whose library source is not among the given
files) — "parse the following digits as a decimal port number".  It consumes
leading decimal digits, returning the accumulated value and the unconsumed
remainder; when no digit is consumed the value is 0 and the remainder is the
whole input, matching the `strtol` end-pointer contract. -/
def strtoul10Aux (acc : Nat) : List Char → Nat × List Char
  | [] => (acc, [])
  | c :: cs =>
    if c.isDigit then strtoul10Aux (acc * 10 + (c.toNat - 48)) cs
    else (acc, c :: cs)

/-- See `strtoul10Aux`. -/
def strtoul10 (s : List Char) : Nat × List Char := strtoul10Aux 0 s

/-- `#define SERVER_NAME_SIZE 200`. -/
def SERVER_NAME_SIZE : Nat := 200

/-- `#define PROGRESS_PRINT_STEP_BYTES (100 * 1024)`. -/
def PROGRESS_PRINT_STEP_BYTES : Nat := 100 * 1024

/-- The distinct `-EINVAL` exits of `parse_url`, distinguished here by the
program point (the C code logs a distinct diagnostic only for the missing
scheme). -/
inductive ParseErr where
  | unsupportedScheme
  | noDelimiter
  | hostTooLong
  | portNotSlash
  | portTooBig
deriving DecidableEq

/-- The out-parameters of `parse_url`: the NUL-terminated copy written into
`host`, the `u16` port, and the `path` pointer (a suffix of the URL). -/
structure ParsedUrl where
  host : List Char
  port : Nat
  path : List Char
deriving DecidableEq

/-- `parse_url` (wget.c lines 35-78).  `strstr` locates the first occurrence
of `"http://"`; the host is delimited by the first `:` of the remainder if
one exists anywhere, else by the first `/`; the host-length bound is checked
before the copy; a `:` delimiter is followed by a decimal port that must be
followed by `/` and be at most 65535; the path is the suffix from the
final `/`. -/
def parse_url (url : List Char) : Except ParseErr ParsedUrl :=
  match findHttp url with
  | none => .error .unsupportedScheme
  | some p =>
    match splitAtFirst (fun c => c == ':') p with
    | some (host, _, q) =>
      if SERVER_NAME_SIZE ≤ host.length then .error .hostTooLong
      else
        let vr := strtoul10 q
        match vr.2 with
        | c :: rest =>
          if c == '/' then
            if 65535 < vr.1 then .error .portTooBig
            else .ok ⟨host, vr.1, c :: rest⟩
          else .error .portNotSlash
        | [] => .error .portNotSlash
    | none =>
      match splitAtFirst (fun c => c == '/') p with
      | none => .error .noDelimiter
      | some (host, _, rest) =>
        if SERVER_NAME_SIZE ≤ host.length then .error .hostTooLong
        else .ok ⟨host, 80, '/' :: rest⟩

/-- Bool success test for `parse_url` results. -/
def exceptOk : Except ParseErr ParsedUrl → Bool
  | .ok _ => true
  | .error _ => false

/-- `parse_legacy_arg` (wget.c lines 84-144).  `rem` is the destination
capacity (`sizeof(nurl)` at the call site); `envH`/`envS` are the values of
the `httpserverip` / `serverip` environment variables.  The result is the
NUL-terminated content of the destination buffer on success (`return 0`),
`none` on `return -1`.  In the verbatim branch `snprintf` writes at most
`rem - 1` characters plus the terminator and returns the full source length
`n`; the guard rejects only `n > rem`, so `n = rem` succeeds with the last
character dropped. -/
def parse_legacy_arg (arg : List Char) (rem : Nat) (envH envS : Option (List Char)) :
    Option (List Char) :=
  if leadsWith httpChars arg then
    if arg.length > rem then none
    else some (if arg.length < rem then arg else arg.take (rem - 1))
  else if 7 > rem then none
  else
    let rem1 := rem - 7
    let sp : Option (List Char × List Char) :=
      match splitAtFirst (fun c => c == ':') arg with
      | some (b, _, a) => some (b, a)
      | none =>
        match envH with
        | some e => some (e, arg)
        | none =>
          match envS with
          | some e => some (e, arg)
          | none => none
    match sp with
    | none => none
    | some (server, path) =>
      if rem1 < server.length then none
      else
        let rem2 := rem1 - server.length
        if rem2 < 1 then none
        else
          let rem3 := rem2 - 1
          if rem3 < path.length then none
          else
            let rem4 := rem3 - path.length
            if rem4 < 1 then none
            else some (schemeChars ++ server ++ '/' :: path)

/-- The mutable fields of `struct wget_ctx` touched by `httpc_recv_cb`,
plus `written`: the bytes copied to the destination region so far (the
buffer contents from `saved_daddr` up to `daddr`). -/
structure RecvCtx where
  daddr : Nat
  size : Nat
  prevsize : Nat
  start_time : Nat
  written : List Nat
deriving DecidableEq

/-- One step of the pbuf-chain walk in `httpc_recv_cb`: copy the payload at
the write cursor, advance cursor and byte counter, and emit a progress mark
(recorded by updating `prevsize`) when the threshold is crossed. -/
def recvChainStep (s : RecvCtx) (payload : List Nat) : RecvCtx :=
  { daddr := s.daddr + payload.length
    size := s.size + payload.length
    prevsize :=
      if PROGRESS_PRINT_STEP_BYTES < s.size + payload.length - s.prevsize
      then s.size + payload.length else s.prevsize
    start_time := s.start_time
    written := s.written ++ payload }

/-- `httpc_recv_cb` (wget.c lines 146-171).  `chain` is the pbuf chain (one
payload per pbuf); a NULL pbuf (`chain = []`) returns `ERR_BUF` without
touching the context; otherwise the start time is latched on first data
(`now` models `get_timer(0)`) and the chain is walked. -/
def httpc_recv_cb (now : Nat) (chain : List (List Nat)) (s : RecvCtx) : RecvCtx :=
  match chain with
  | [] => s
  | c :: cs =>
    let s1 := if s.start_time == 0 then { s with start_time := now } else s
    (c :: cs).foldl recvChainStep s1

/-- Delivering a sequence of fragments by one `httpc_recv_cb` invocation
each; every invocation carries its own `get_timer(0)` reading. -/
def recvIter (s : RecvCtx) (frags : List (Nat × List Nat)) : RecvCtx :=
  frags.foldl (fun st tf => httpc_recv_cb tf.1 [tf.2] st) s

/-- `enum done_state`. -/
inductive DoneState where
  | NOT_DONE
  | SUCCESS
  | FAILURE
deriving DecidableEq

/-- Observable effects of `httpc_result_cb`: the terminal status written to
`ctx->done`, the computed elapsed time and throughput (present only on the
OK/200 path), and whether the boot descriptor was published via
`efi_set_bootdev`. -/
structure ResultOut where
  done : DoneState
  elapsed : Option Nat
  throughput : Option Nat
  published : Bool
deriving DecidableEq

/-- `httpc_result_cb` (wget.c lines 173-208).  `result` is the protocol
outcome (`HTTPC_RESULT_OK` being the distinguished value 0), `rx` the
`u32` received content length, `srv` the server status code, `elapsedRaw`
the timer difference `get_timer(ctx->start_time)` and `persistFails`
whether `env_set_hex` fails.  `ulong` arithmetic is taken modulo `2 ^ 64`. -/
def httpc_result_cb (result rx srv elapsedRaw : Nat) (persistFails : Bool) : ResultOut :=
  if result != 0 then ⟨.FAILURE, none, none, false⟩
  else if srv != 200 then ⟨.FAILURE, none, none, false⟩
  else
    let elapsed := if elapsedRaw == 0 then 1 else elapsedRaw
    let tp := rx / elapsed * 1000 % 2 ^ 64
    if persistFails then ⟨.FAILURE, some elapsed, some tp, true⟩
    else ⟨.SUCCESS, some elapsed, some tp, true⟩

/-- `CMD_RET_FAILURE` (U-Boot command return convention). -/
def CMD_RET_FAILURE : Int := 1

/-- `CMD_RET_USAGE` (U-Boot command return convention). -/
def CMD_RET_USAGE : Int := -1

/-- Observable outcome of one `wget_loop` run: the returned code, how many
times `net_lwip_remove_netif` executed, and the final `ctx.done`. -/
structure WgetLoopOut where
  ret : Int
  teardowns : Nat
  done : DoneState
deriving DecidableEq

/-- The polling loop of `wget_loop` (lines 243-248).  Each element of
`iters` is one loop-body iteration, recording the value of `ctx.done` after
`net_lwip_rx`/`sys_check_timeouts` ran the callbacks, and the `ctrlc()`
flag checked afterwards.  `none` means the supplied iterations run out with
the loop still spinning. -/
def pollLoop : DoneState → List (DoneState × Bool) → Option DoneState
  | d, iters =>
    if d = .NOT_DONE then
      match iters with
      | [] => none
      | (d2, c) :: rest => if c then some d2 else pollLoop d2 rest
    else some d

/-- `wget_loop` (wget.c lines 210-256).  `netifOk` is whether
`net_lwip_new_netif` succeeds, `httpcOk` whether `httpc_get_file_dns`
returns 0, and `iters` drives the polling loop. -/
def wget_loop (uri : List Char) (netifOk httpcOk : Bool)
    (iters : List (DoneState × Bool)) : Option WgetLoopOut :=
  match parse_url uri with
  | .error _ => some ⟨CMD_RET_USAGE, 0, .NOT_DONE⟩
  | .ok _ =>
    if netifOk = false then some ⟨-1, 0, .NOT_DONE⟩
    else if httpcOk = false then some ⟨CMD_RET_FAILURE, 1, .NOT_DONE⟩
    else
      match pollLoop .NOT_DONE iters with
      | none => none
      | some d => some ⟨if d = .SUCCESS then 0 else -1, 1, d⟩

/-- `wget_validate_uri` (wget.c lines 314-357): reject on any character in
`0x01`–`0x20` or `0x7F`, on a missing `http://` prefix, on a missing `/`
after the scheme (`strsep` leaving the rest NULL), or on `@` in the
authority. -/
def wget_validate_uri (uri : List Char) : Bool :=
  if uri.any (fun c => decide (1 ≤ c.toNat) && decide (c.toNat ≤ 32)) then false
  else if uri.any (fun c => c.toNat == 127) then false
  else if leadsWith schemeChars uri then
    match splitAtFirst (fun c => c == '/') (uri.drop 7) with
    | none => false
    | some (a, _, _) => !a.any (fun c => c == '@')
  else false

/-- Spec-side reading of the validator's rejection condition (section 4.1 of
the specification, quoted by claim C4). -/
def uriRejected (uri : List Char) : Prop :=
  (∃ c ∈ uri, (1 ≤ c.toNat ∧ c.toNat ≤ 32) ∨ c.toNat = 127) ∨
  ¬ schemeChars <+: uri ∨
  (∀ c ∈ uri.drop 7, c ≠ '/') ∨
  '@' ∈ (uri.drop 7).takeWhile (fun c => c != '/')

/-- Spec-side decimal value of a digit string. -/
def decVal (ds : List Char) : Nat := ds.foldl (fun a c => a * 10 + (c.toNat - 48)) 0

/-- Spec-side assembly of a well-formed URL `http://host[:port]/path`. -/
def urlOf (host : List Char) (portDigits : Option (List Char)) (path : List Char) :
    List Char :=
  match portDigits with
  | none => schemeChars ++ (host ++ path)
  | some ds => schemeChars ++ (host ++ ':' :: (ds ++ path))

/-- Spec-side expected port: the decimal value of the digits, or 80 when no
port is present. -/
def portVal (portDigits : Option (List Char)) : Nat :=
  match portDigits with
  | none => 80
  | some ds => decVal ds

/-! ## Helper lemmas about the string-scanning primitives -/

theorem leadsWith_iff (pat s : List Char) : leadsWith pat s = true ↔ pat <+: s := by
  induction pat generalizing s with
  | nil => simp [leadsWith]
  | cons a as ih =>
    cases s with
    | nil => simp [leadsWith]
    | cons b bs =>
      simp [leadsWith, List.cons_prefix_cons, Bool.and_eq_true, beq_iff_eq, ih]

theorem findHttp_scheme (rest : List Char) :
    findHttp (schemeChars ++ rest) = some rest := by
  have h1 : leadsWith schemeChars (schemeChars ++ rest) = true :=
    (leadsWith_iff _ _).mpr (schemeChars.prefix_append rest)
  have e : schemeChars ++ rest = 'h' :: ('t' :: 't' :: 'p' :: ':' :: '/' :: '/' :: rest) :=
    rfl
  rw [e] at h1 ⊢
  rw [findHttp, if_pos h1]
  rfl

theorem findHttp_eq_none_iff (l : List Char) :
    findHttp l = none ↔ ¬ schemeChars <:+: l := by
  induction l with
  | nil => simp [findHttp, List.infix_nil, schemeChars]
  | cons c cs ih =>
    rw [findHttp]
    by_cases h : leadsWith schemeChars (c :: cs) = true
    · rw [if_pos h]
      have hin : schemeChars <:+: c :: cs :=
        List.infix_cons_iff.mpr (Or.inl ((leadsWith_iff _ _).mp h))
      simp [hin]
    · rw [if_neg h, ih, List.infix_cons_iff]
      have h2 : ¬ schemeChars <+: c :: cs := fun hp => h ((leadsWith_iff _ _).mpr hp)
      tauto

theorem splitAtFirst_eq_none_iff (p : Char → Bool) (l : List Char) :
    splitAtFirst p l = none ↔ ∀ x ∈ l, p x = false := by
  induction l with
  | nil => simp [splitAtFirst]
  | cons c cs ih =>
    by_cases h : p c = true
    · simp [splitAtFirst, h]
    · have h' : p c = false := by revert h; cases p c <;> simp
      rw [splitAtFirst, if_neg (by simp [h'])]
      cases hs : splitAtFirst p cs with
      | none =>
        constructor
        · intro _ x hx
          rcases List.mem_cons.mp hx with rfl | hx2
          · exact h'
          · exact ih.mp hs x hx2
        · intro _; rfl
      | some bma =>
        obtain ⟨b, m, a⟩ := bma
        constructor
        · intro hcontra; exact absurd hcontra (by simp)
        · intro hall
          have hnone : splitAtFirst p cs = none :=
            ih.mpr fun x hx => hall x (List.mem_cons_of_mem _ hx)
          rw [hs] at hnone
          exact absurd hnone (by simp)

theorem splitAtFirst_of_first (p : Char → Bool) (b : List Char) (c : Char) (a : List Char)
    (hb : ∀ x ∈ b, p x = false) (hc : p c = true) :
    splitAtFirst p (b ++ c :: a) = some (b, c, a) := by
  induction b with
  | nil => simp [splitAtFirst, hc]
  | cons y ys ih =>
    have hy : p y = false := hb y (List.mem_cons_self _ _)
    have ih2 := ih fun x hx => hb x (List.mem_cons_of_mem _ hx)
    simp [splitAtFirst, hy, ih2]

theorem splitAtFirst_parts (p : Char → Bool) (l : List Char) :
    ∀ b c a, splitAtFirst p l = some (b, c, a) →
      l = b ++ c :: a ∧ p c = true ∧ ∀ x ∈ b, p x = false := by
  induction l with
  | nil => intro b c a h; simp [splitAtFirst] at h
  | cons y ys ih =>
    intro b c a h
    by_cases hy : p y = true
    · rw [splitAtFirst, if_pos hy] at h
      obtain ⟨hb, hcy, ha⟩ : [] = b ∧ y = c ∧ ys = a := by
        simpa using h
      subst hb; subst hcy; subst ha
      exact ⟨rfl, hy, by simp⟩
    · have hy' : p y = false := by revert hy; cases p y <;> simp
      rw [splitAtFirst, if_neg (by simp [hy'])] at h
      cases hs : splitAtFirst p ys with
      | none => rw [hs] at h; exact absurd h (by simp)
      | some bma =>
        obtain ⟨b2, m2, a2⟩ := bma
        rw [hs] at h
        obtain ⟨hb, hm, ha⟩ : y :: b2 = b ∧ m2 = c ∧ a2 = a := by
          simpa using h
        subst hb; subst hm; subst ha
        obtain ⟨h1, h2, h3⟩ := ih b2 m2 a2 hs
        refine ⟨by simp [h1], h2, ?_⟩
        intro x hx
        rcases List.mem_cons.mp hx with rfl | hx2
        · exact hy'
        · exact h3 x hx2

theorem takeWhile_parts (q : Char → Bool) (b : List Char) (c : Char) (a : List Char)
    (hb : ∀ x ∈ b, q x = true) (hc : q c = false) :
    (b ++ c :: a).takeWhile q = b := by
  induction b with
  | nil => simp [List.takeWhile_cons, hc]
  | cons y ys ih =>
    have hy : q y = true := hb y (List.mem_cons_self _ _)
    have ih2 := ih fun x hx => hb x (List.mem_cons_of_mem _ hx)
    simp [List.takeWhile_cons, hy, ih2]

theorem strtoul10Aux_digits (ds : List Char) (t : List Char) :
    ∀ acc, (∀ d ∈ ds, d.isDigit = true) →
      strtoul10Aux acc (ds ++ '/' :: t) =
        (ds.foldl (fun a c => a * 10 + (c.toNat - 48)) acc, '/' :: t) := by
  induction ds with
  | nil =>
    intro acc _
    simp [strtoul10Aux]
  | cons d ds ih =>
    intro acc hd
    have hdd : d.isDigit = true := hd d (List.mem_cons_self _ _)
    rw [List.cons_append, strtoul10Aux, if_pos hdd]
    exact ih _ fun x hx => hd x (List.mem_cons_of_mem _ hx)

/-! ## Helper lemmas about the Response Sink -/

theorem foldl_recvChainStep_size (chain : List (List Nat)) :
    ∀ s : RecvCtx, (chain.foldl recvChainStep s).size = s.size + chain.flatten.length := by
  induction chain with
  | nil => intro s; simp
  | cons c cs ih =>
    intro s
    rw [List.foldl_cons, ih]
    simp [recvChainStep, Nat.add_assoc]

theorem foldl_recvChainStep_written (chain : List (List Nat)) :
    ∀ s : RecvCtx, (chain.foldl recvChainStep s).written = s.written ++ chain.flatten := by
  induction chain with
  | nil => intro s; simp
  | cons c cs ih =>
    intro s
    rw [List.foldl_cons, ih]
    simp [recvChainStep]

theorem startLatch_size (now : Nat) (s : RecvCtx) :
    (if s.start_time == 0 then { s with start_time := now } else s).size = s.size := by
  split <;> rfl

theorem startLatch_written (now : Nat) (s : RecvCtx) :
    (if s.start_time == 0 then { s with start_time := now } else s).written = s.written := by
  split <;> rfl

theorem httpc_recv_cb_size (now : Nat) (chain : List (List Nat)) (s : RecvCtx) :
    (httpc_recv_cb now chain s).size = s.size + chain.flatten.length := by
  cases chain with
  | nil => simp [httpc_recv_cb]
  | cons c cs =>
    rw [httpc_recv_cb]
    rw [foldl_recvChainStep_size, startLatch_size]

theorem httpc_recv_cb_written (now : Nat) (chain : List (List Nat)) (s : RecvCtx) :
    (httpc_recv_cb now chain s).written = s.written ++ chain.flatten := by
  cases chain with
  | nil => simp [httpc_recv_cb]
  | cons c cs =>
    rw [httpc_recv_cb]
    rw [foldl_recvChainStep_written, startLatch_written]

theorem recvIter_size (frags : List (Nat × List Nat)) :
    ∀ s : RecvCtx, (recvIter s frags).size = s.size + ((frags.map Prod.snd).flatten).length := by
  induction frags with
  | nil => intro s; simp [recvIter]
  | cons tf tfs ih =>
    intro s
    rw [recvIter, List.foldl_cons]
    rw [show ∀ s2, List.foldl (fun st tf => httpc_recv_cb tf.1 [tf.2] st) s2 tfs =
          recvIter s2 tfs from fun _ => rfl]
    rw [ih, httpc_recv_cb_size]
    simp [Nat.add_assoc]

theorem recvIter_written (frags : List (Nat × List Nat)) :
    ∀ s : RecvCtx, (recvIter s frags).written = s.written ++ (frags.map Prod.snd).flatten := by
  induction frags with
  | nil => intro s; simp [recvIter]
  | cons tf tfs ih =>
    intro s
    rw [recvIter, List.foldl_cons]
    rw [show ∀ s2, List.foldl (fun st tf => httpc_recv_cb tf.1 [tf.2] st) s2 tfs =
          recvIter s2 tfs from fun _ => rfl]
    rw [ih, httpc_recv_cb_written]
    simp

/-! ## Claim theorems -/

/-- C10: delivering a byte sequence to the Response Sink split into any list
of fragments (one `httpc_recv_cb` invocation each, each with its own timer
reading) yields the same final `ctx.size` (bytes received) and the same
destination-buffer contents as delivering the concatenation in a single
invocation, from any initial Transfer Context. -/
theorem recv_fragmentation (frags : List (Nat × List Nat)) (s : RecvCtx) (t0 : Nat) :
    (recvIter s frags).size = (httpc_recv_cb t0 [(frags.map Prod.snd).flatten] s).size ∧
    (recvIter s frags).written = (httpc_recv_cb t0 [(frags.map Prod.snd).flatten] s).written := by
  rw [recvIter_size, recvIter_written, httpc_recv_cb_size, httpc_recv_cb_written]
  simp

/-- C2: the Result Finalizer's decision table — a non-OK outcome or a server
status other than 200 ends in `FAILURE` without publishing; on OK/200 the
elapsed time is clamped to `max 1 (now - start_time)`, the throughput is
`rx / elapsed * 1000` (so `rx * 1000` when the raw elapsed time was 0), the
boot descriptor is published, and the status is `FAILURE` exactly when
persisting the result values fails, else `SUCCESS`. -/
theorem result_cb_table (result rx srv elapsedRaw : Nat) (persistFails : Bool)
    (hrx : rx < 2 ^ 32) :
    (result ≠ 0 → httpc_result_cb result rx srv elapsedRaw persistFails =
       ⟨.FAILURE, none, none, false⟩) ∧
    (result = 0 → srv ≠ 200 → httpc_result_cb result rx srv elapsedRaw persistFails =
       ⟨.FAILURE, none, none, false⟩) ∧
    (result = 0 → srv = 200 →
      (httpc_result_cb result rx srv elapsedRaw persistFails).elapsed =
        some (max 1 elapsedRaw) ∧
      (httpc_result_cb result rx srv elapsedRaw persistFails).throughput =
        some (rx / max 1 elapsedRaw * 1000) ∧
      (httpc_result_cb result rx srv elapsedRaw persistFails).published = true ∧
      (httpc_result_cb result rx srv elapsedRaw persistFails).done =
        (if persistFails then .FAILURE else .SUCCESS) ∧
      (elapsedRaw = 0 →
        (httpc_result_cb result rx srv elapsedRaw persistFails).throughput =
          some (rx * 1000))) := by
  have hmod : ∀ m : Nat, rx / m * 1000 % 2 ^ 64 = rx / m * 1000 := by
    intro m
    have h1 : rx / m ≤ rx := Nat.div_le_self _ _
    have h2 : rx / m * 1000 < 2 ^ 64 := by
      generalize rx / m = a at h1 ⊢
      omega
    exact Nat.mod_eq_of_lt h2
  refine ⟨?_, ?_, ?_⟩
  · intro h
    have hb : (result != 0) = true := by simpa [bne_iff_ne] using h
    simp [httpc_result_cb, hb]
  · intro h1 h2
    subst h1
    have hb : (srv != 200) = true := by simpa [bne_iff_ne] using h2
    simp [httpc_result_cb, hb]
  · intro h1 h2
    subst h1; subst h2
    cases elapsedRaw with
    | zero =>
      have hb : rx * 1000 < 18446744073709551616 := by omega
      cases persistFails <;> simp [httpc_result_cb, hmod, Nat.div_one, hb]
    | succ n =>
      have hd : rx / (n + 1) ≤ rx := Nat.div_le_self _ _
      have hb : rx / (n + 1) * 1000 < 18446744073709551616 := by
        generalize rx / (n + 1) = a at hd ⊢
        omega
      have hmax : max 1 (n + 1) = n + 1 :=
        Nat.max_eq_right (Nat.succ_le_succ (Nat.zero_le n))
      cases persistFails <;> simp [httpc_result_cb, hmod, hmax, hb]

/-- C3: whenever `wget_loop` has parsed the URL and created the network
interface, every terminating run tears the interface down exactly once —
whether request initiation fails, the poll loop reaches a terminal status,
or Ctrl-C breaks the loop — and the return value is success (0) exactly when
the final Transfer Context status is `SUCCESS`; in particular an interrupt
observed before a terminal status yields a failure return. -/
theorem wget_loop_lifecycle (uri : List Char) (hok : Bool)
    (iters : List (DoneState × Bool)) (out : WgetLoopOut)
    (hparse : exceptOk (parse_url uri) = true)
    (hrun : wget_loop uri true hok iters = some out) :
    out.teardowns = 1 ∧ (out.ret = 0 ↔ out.done = .SUCCESS) := by
  cases hp : parse_url uri with
  | error e => rw [hp] at hparse; simp [exceptOk] at hparse
  | ok u =>
    rw [wget_loop, hp] at hrun
    rw [if_neg (by simp)] at hrun
    cases hok with
    | false =>
      rw [if_pos rfl] at hrun
      obtain rfl : (⟨CMD_RET_FAILURE, 1, .NOT_DONE⟩ : WgetLoopOut) = out := by
        simpa using hrun
      exact ⟨rfl, by simp [CMD_RET_FAILURE]⟩
    | true =>
      rw [if_neg (by simp)] at hrun
      cases hpoll : pollLoop .NOT_DONE iters with
      | none => rw [hpoll] at hrun; exact absurd hrun (by simp)
      | some d =>
        rw [hpoll] at hrun
        obtain rfl : (⟨if d = .SUCCESS then 0 else -1, 1, d⟩ : WgetLoopOut) = out := by
          simpa using hrun
        cases d <;> exact ⟨rfl, by simp⟩

/-- Witness for C3: a run that parses `http://h/p`, creates the interface,
initiates the request and completes successfully in one poll iteration. -/
theorem wget_loop_lifecycle_witness :
    exceptOk (parse_url ("http://h/p".data)) = true ∧
    (({ ret := 0, teardowns := 1, done := .SUCCESS } : WgetLoopOut).teardowns = 1 ∧
     (({ ret := 0, teardowns := 1, done := .SUCCESS } : WgetLoopOut).ret = 0 ↔
      ({ ret := 0, teardowns := 1, done := .SUCCESS } : WgetLoopOut).done = .SUCCESS)) :=
  ⟨rfl, wget_loop_lifecycle ("http://h/p".data) true [(.SUCCESS, false)]
    ⟨0, 1, .SUCCESS⟩ rfl rfl⟩

/-- Witness for C2: outcome OK, server status 200, 5 bytes, raw elapsed 0,
persistence succeeding — elapsed clamps to 1 and the throughput is
`5 * 1000`. -/
theorem result_cb_table_witness :
    (httpc_result_cb 0 5 200 0 false).done = .SUCCESS ∧
    (httpc_result_cb 0 5 200 0 false).throughput = some 5000 := by
  have h := (result_cb_table 0 5 200 0 false (by decide)).2.2 rfl rfl
  refine ⟨?_, ?_⟩
  · rw [h.2.2.2.1]; rfl
  · simpa using h.2.2.2.2 rfl

/-- C1 (amended): for a URL `http://host[:port]/path` whose host contains
neither `:` nor `/` and fits the host buffer, whose port (when present)
consists of decimal digits with value at most 65535, and whose path starts
with `/` and — when no explicit port is present — contains no `:`,
`parse_url` succeeds with exactly that host, that port (80 when absent) and
that path, the path being a suffix of (pointer into) the original URL. -/
theorem parse_url_wellformed (host path : List Char) (pd : Option (List Char))
    (hhost : host.all (fun c => !(c == ':') && !(c == '/')) = true)
    (hlen : host.length < SERVER_NAME_SIZE)
    (hpath : ∃ t, path = '/' :: t)
    (hpd : match pd with
           | none => path.all (fun c => !(c == ':')) = true
           | some ds => ds ≠ [] ∧ ds.all (fun c => c.isDigit) = true ∧ decVal ds ≤ 65535) :
    parse_url (urlOf host pd path) = .ok ⟨host, portVal pd, path⟩ ∧
    path <:+ urlOf host pd path := by
  obtain ⟨t, rfl⟩ := hpath
  have hhost' := List.all_eq_true.mp hhost
  have hhc : ∀ x ∈ host, (x == ':') = false := by
    intro x hx
    have hb := hhost' x hx
    revert hb
    cases x == ':' <;> simp
  have hhs : ∀ x ∈ host, (x == '/') = false := by
    intro x hx
    have hb := hhost' x hx
    revert hb
    cases x == '/' <;> cases x == ':' <;> simp
  cases pd with
  | none =>
    have hpc : ∀ x ∈ ('/' :: t), (x == ':') = false := by
      intro x hx
      have hb := List.all_eq_true.mp hpd x hx
      revert hb
      cases x == ':' <;> simp
    have h1 : splitAtFirst (fun c => c == ':') (host ++ '/' :: t) = none :=
      (splitAtFirst_eq_none_iff _ _).mpr (by
        intro x hx
        rcases List.mem_append.mp hx with hx1 | hx2
        · exact hhc x hx1
        · exact hpc x hx2)
    have h2 : splitAtFirst (fun c => c == '/') (host ++ '/' :: t) = some (host, '/', t) :=
      splitAtFirst_of_first _ _ _ _ hhs (by simp)
    refine ⟨?_, ⟨schemeChars ++ host, by simp [urlOf]⟩⟩
    simp only [urlOf, parse_url, findHttp_scheme, h1, h2]
    rw [if_neg (Nat.not_le.mpr hlen)]
    rfl
  | some ds =>
    obtain ⟨hne, hdig, hval⟩ := hpd
    have h1 : splitAtFirst (fun c => c == ':') (host ++ ':' :: (ds ++ '/' :: t)) =
        some (host, ':', ds ++ '/' :: t) :=
      splitAtFirst_of_first _ _ _ _ hhc (by simp)
    have h3 : strtoul10 (ds ++ '/' :: t) = (decVal ds, '/' :: t) :=
      strtoul10Aux_digits ds t 0 (List.all_eq_true.mp hdig)
    refine ⟨?_, ⟨schemeChars ++ (host ++ ':' :: ds), by simp [urlOf]⟩⟩
    simp only [urlOf, parse_url, findHttp_scheme, h1]
    rw [if_neg (Nat.not_le.mpr hlen)]
    simp only [h3]
    rw [if_pos (by simp), if_neg (Nat.not_lt.mpr hval)]
    rfl

/-- Witness for C1: `http://example.com/a/b` (implicit port 80) and
`http://h:8080/x` (explicit port) both parse to exactly the expected
host/port/path triple, with the path a suffix of the URL. -/
theorem parse_url_wellformed_witness :
    (parse_url (urlOf ("example.com".data) none ("/a/b".data)) =
        .ok ⟨"example.com".data, 80, "/a/b".data⟩ ∧
      "/a/b".data <:+ urlOf ("example.com".data) none ("/a/b".data)) ∧
    (parse_url (urlOf ("h".data) (some ("8080".data)) ("/x".data)) =
        .ok ⟨"h".data, 8080, "/x".data⟩ ∧
      "/x".data <:+ urlOf ("h".data) (some ("8080".data)) ("/x".data)) :=
  ⟨parse_url_wellformed ("example.com".data) ("/a/b".data) none rfl (by decide)
      ⟨"a/b".data, rfl⟩ rfl,
   parse_url_wellformed ("h".data) ("/x".data) (some ("8080".data)) rfl (by decide)
      ⟨"x".data, rfl⟩ ⟨by decide, rfl, by decide⟩⟩

/-- Counterexample to C1 as stated: in the well-formed URL
`http://example.com/a:1/b` (host `example.com`, no port, path `/a:1/b`) the
parser takes the first `:` of the whole remainder as the port delimiter and
returns host `example.com/a`, port 1 and path `/b` instead of the claimed
`{example.com, 80, /a:1/b}`. -/
theorem parse_url_colon_path_counterexample :
    parse_url ("http://example.com/a:1/b".data) =
      .ok ⟨"example.com/a".data, 1, "/b".data⟩ ∧
    "example.com/a".data ≠ "example.com".data :=
  ⟨rfl, by decide⟩

/-- C5 (amended): with the host delimited by `:`, `parse_url` errors when the
decimal port value exceeds 65535 or when the character at which digit
consumption stops is not `/` (including the end of the string); when no
digit is consumed but the very next character is `/`, it instead succeeds
with port 0. -/
theorem parse_url_port_errors (host q : List Char)
    (hc : host.all (fun c => !(c == ':')) = true) :
    (65535 < (strtoul10 q).1 →
       exceptOk (parse_url (schemeChars ++ (host ++ ':' :: q))) = false) ∧
    (∀ c rest, (strtoul10 q).2 = c :: rest → (c == '/') = false →
       exceptOk (parse_url (schemeChars ++ (host ++ ':' :: q))) = false) ∧
    ((strtoul10 q).2 = [] →
       exceptOk (parse_url (schemeChars ++ (host ++ ':' :: q))) = false) := by
  have hc' : ∀ x ∈ host, (x == ':') = false := by
    intro x hx
    have hb := List.all_eq_true.mp hc x hx
    revert hb
    cases x == ':' <;> simp
  have h1 : splitAtFirst (fun c => c == ':') (host ++ ':' :: q) = some (host, ':', q) :=
    splitAtFirst_of_first _ _ _ _ hc' (by simp)
  by_cases hL : SERVER_NAME_SIZE ≤ host.length
  · refine ⟨fun _ => ?_, fun c rest _ _ => ?_, fun _ => ?_⟩ <;>
      · simp only [parse_url, findHttp_scheme, h1]
        rw [if_pos hL]
        rfl
  · refine ⟨?_, ?_, ?_⟩
    · intro hbig
      simp only [parse_url, findHttp_scheme, h1]
      rw [if_neg hL]
      cases hq : (strtoul10 q).2 with
      | nil => simp only [hq]; rfl
      | cons c rest =>
        simp only [hq]
        by_cases hcs : (c == '/') = true
        · rw [if_pos hcs, if_pos hbig]; rfl
        · rw [if_neg hcs]; rfl
    · intro c rest hq hcs
      simp only [parse_url, findHttp_scheme, h1]
      rw [if_neg hL]
      simp only [hq]
      rw [if_neg (by simp [hcs])]
      rfl
    · intro hq
      simp only [parse_url, findHttp_scheme, h1]
      rw [if_neg hL]
      simp only [hq]
      rfl

/-- Witness for C5 (amended): `http://h:99999/x` has port value 99999 above
65535 and is rejected. -/
theorem parse_url_port_errors_witness :
    ("h".data.all (fun c => !(c == ':')) = true) ∧
    65535 < (strtoul10 ("99999/x".data)).1 ∧
    exceptOk (parse_url (schemeChars ++ ("h".data ++ ':' :: "99999/x".data))) = false :=
  ⟨rfl, by decide,
   (parse_url_port_errors ("h".data) ("99999/x".data) rfl).1 (by decide)⟩

/-- Counterexample to C5 as stated: in `http://h:/x` the port parse consumes
no digits, yet `parse_url` succeeds with port 0 instead of returning an
error. -/
theorem parse_url_empty_port_counterexample :
    parse_url ("http://h:/x".data) = .ok ⟨"h".data, 0, "/x".data⟩ ∧
    exceptOk (parse_url ("http://h:/x".data)) = true :=
  ⟨rfl, rfl⟩

theorem parse_url_scheme_err (url : List Char) :
    parse_url url = .error .unsupportedScheme ↔ findHttp url = none := by
  cases hf : findHttp url with
  | none => simp [parse_url, hf]
  | some p =>
    simp only [parse_url, hf]
    constructor
    · intro h
      exfalso
      rcases h1 : splitAtFirst (fun c => c == ':') p with _ | ⟨b, m, q⟩
      · rcases h2 : splitAtFirst (fun c => c == '/') p with _ | ⟨b2, m2, q2⟩
        · simp [h1, h2] at h
        · simp only [h1, h2] at h
          split at h <;> simp at h
      · simp only [h1] at h
        split at h
        · simp at h
        · split at h
          · split at h
            · split at h <;> simp at h
            · simp at h
          · simp at h
    · intro h
      exact absurd h (by simp)

/-- C6 (amended): `parse_url` reports the "unsupported scheme" error exactly
when `http://` occurs nowhere in the string as a substring; since the lookup
is `strstr`, a string merely containing `http://` (not necessarily as a
prefix) proceeds to parse from the first occurrence. -/
theorem parse_url_scheme_infix (url : List Char) :
    parse_url url = .error .unsupportedScheme ↔ ¬ schemeChars <:+: url := by
  rw [parse_url_scheme_err, findHttp_eq_none_iff]

/-- Counterexample to C6 as stated: `xhttp://h/p` does not begin with
`http://` yet parses successfully (from the embedded occurrence), instead of
returning the unsupported-scheme error. -/
theorem parse_url_scheme_counterexample :
    leadsWith schemeChars ("xhttp://h/p".data) = false ∧
    parse_url ("xhttp://h/p".data) = .ok ⟨"h".data, 80, "/p".data⟩ :=
  ⟨rfl, rfl⟩

theorem delimiterFar (p b : List Char) (c : Char) (a : List Char)
    (hp : p = b ++ c :: a)
    (hcd : (c == ':') = true ∨ (c == '/') = true)
    (hno : (p.take SERVER_NAME_SIZE).all (fun x => !(x == ':') && !(x == '/')) = true) :
    SERVER_NAME_SIZE ≤ b.length := by
  by_contra hlt
  push_neg at hlt
  have hcmem : c ∈ p.take SERVER_NAME_SIZE := by
    subst hp
    rw [List.take_append_eq_append_take, List.take_of_length_le (Nat.le_of_lt hlt)]
    apply List.mem_append_right
    have h1 : SERVER_NAME_SIZE - b.length = (SERVER_NAME_SIZE - b.length - 1) + 1 := by
      have : 1 ≤ SERVER_NAME_SIZE - b.length := by
        simp only [SERVER_NAME_SIZE] at hlt ⊢
        omega
      omega
    rw [h1, List.take_succ_cons]
    exact List.mem_cons_self _ _
  have hx := List.all_eq_true.mp hno c hcmem
  rcases hcd with h | h <;> simp [h] at hx

/-- C8: whenever neither `:` nor `/` occurs among the first
`SERVER_NAME_SIZE` (200) characters following the scheme — i.e. the host
substring would have length at least the host-buffer capacity —
`parse_url` returns an error (before any host is produced), never a
truncated success. -/
theorem parse_url_host_bound (url p : List Char)
    (hs : findHttp url = some p)
    (hno : (p.take SERVER_NAME_SIZE).all (fun c => !(c == ':') && !(c == '/')) = true) :
    exceptOk (parse_url url) = false := by
  simp only [parse_url, hs]
  cases h1 : splitAtFirst (fun c => c == ':') p with
  | some bca =>
    obtain ⟨b, c, a⟩ := bca
    obtain ⟨hp, hctrue, hb⟩ := splitAtFirst_parts _ _ b c a h1
    have hlen : SERVER_NAME_SIZE ≤ b.length := delimiterFar p b c a hp (Or.inl hctrue) hno
    simp [hlen, exceptOk]
  | none =>
    cases h2 : splitAtFirst (fun c => c == '/') p with
    | none => rfl
    | some bca =>
      obtain ⟨b, c, a⟩ := bca
      obtain ⟨hp, hctrue, hb⟩ := splitAtFirst_parts _ _ b c a h2
      have hlen : SERVER_NAME_SIZE ≤ b.length := delimiterFar p b c a hp (Or.inr hctrue) hno
      simp [hlen, exceptOk]

/-- Witness for C8: a 300-character host (`http://aaa…a/x`) is rejected. -/
theorem parse_url_host_bound_witness :
    findHttp (schemeChars ++ (List.replicate 300 'a' ++ "/x".data)) =
      some (List.replicate 300 'a' ++ "/x".data) ∧
    ((List.replicate 300 'a' ++ "/x".data).take SERVER_NAME_SIZE).all
      (fun c => !(c == ':') && !(c == '/')) = true ∧
    exceptOk (parse_url (schemeChars ++ (List.replicate 300 'a' ++ "/x".data))) = false :=
  ⟨findHttp_scheme _, by decide,
   parse_url_host_bound _ _ (findHttp_scheme _) (by decide)⟩

/-- C4: the URI validator returns false exactly when the input contains a
character in 0x01–0x20 or 0x7F, or does not begin with `http://`, or has no
`/` after the scheme prefix, or has `@` in the authority (the text between
the scheme and the first `/`); otherwise it returns true — in particular
`http://h/` (empty path after the leading slash) is accepted. -/
theorem validate_uri_characterization :
    (∀ uri : List Char, wget_validate_uri uri = false ↔ uriRejected uri) ∧
    wget_validate_uri ("http://h/".data) = true := by
  refine ⟨fun uri => ?_, rfl⟩
  by_cases h1 : uri.any (fun c => decide (1 ≤ c.toNat) && decide (c.toNat ≤ 32)) = true
  · have hr : uriRejected uri := by
      obtain ⟨c, hc, hf⟩ := List.any_eq_true.mp h1
      refine Or.inl ⟨c, hc, Or.inl ?_⟩
      revert hf
      simp
    rw [wget_validate_uri, if_pos h1]
    exact iff_of_true rfl hr
  · by_cases h2 : uri.any (fun c => c.toNat == 127) = true
    · have hr : uriRejected uri := by
        obtain ⟨c, hc, hf⟩ := List.any_eq_true.mp h2
        exact Or.inl ⟨c, hc, Or.inr (by simpa using hf)⟩
      rw [wget_validate_uri, if_neg h1, if_pos h2]
      exact iff_of_true rfl hr
    · have hnochar : ¬ ∃ c ∈ uri, (1 ≤ c.toNat ∧ c.toNat ≤ 32) ∨ c.toNat = 127 := by
        rintro ⟨c, hc, hcase | hcase⟩
        · exact h1 (List.any_eq_true.mpr ⟨c, hc, by simpa using hcase⟩)
        · exact h2 (List.any_eq_true.mpr ⟨c, hc, by simpa using hcase⟩)
      by_cases h3 : leadsWith schemeChars uri = true
      · have hpre : schemeChars <+: uri := (leadsWith_iff _ _).mp h3
        rw [wget_validate_uri, if_neg h1, if_neg h2, if_pos h3]
        rcases hsp : splitAtFirst (fun c => c == '/') (uri.drop 7) with _ | ⟨b, m, a⟩
        · have hr : uriRejected uri := by
            refine Or.inr (Or.inr (Or.inl ?_))
            intro c hc heq
            have hcf := (splitAtFirst_eq_none_iff _ _).mp hsp c hc
            subst heq
            simp at hcf
          exact iff_of_true rfl hr
        · obtain ⟨hdrop, hm, hb⟩ := splitAtFirst_parts _ _ b m a hsp
          have hmeq : m = '/' := by simpa using hm
          subst hmeq
          have htw : (uri.drop 7).takeWhile (fun c => c != '/') = b := by
            rw [hdrop]
            exact takeWhile_parts _ _ _ _
              (fun x hx => by show (!(x == '/')) = true; rw [hb x hx]; rfl) (by simp)
          have hslash : ¬ (∀ c ∈ uri.drop 7, c ≠ '/') := by
            intro hall
            exact hall '/'
              (by rw [hdrop]; exact List.mem_append_right _ (List.mem_cons_self _ _)) rfl
          show (!b.any (fun c => c == '@')) = false ↔ uriRejected uri
          constructor
          · intro hfalse
            have hat : b.any (fun c => c == '@') = true := by
              revert hfalse
              cases b.any (fun c => c == '@') <;> simp
            obtain ⟨c, hc, hceq⟩ := List.any_eq_true.mp hat
            have hca : c = '@' := by simpa using hceq
            subst hca
            refine Or.inr (Or.inr (Or.inr ?_))
            rw [htw]
            exact hc
          · intro hr
            rcases hr with hA | hB | hC | hD
            · exact absurd hA hnochar
            · exact absurd hpre hB
            · exact absurd hC hslash
            · rw [htw] at hD
              have hat : b.any (fun c => c == '@') = true :=
                List.any_eq_true.mpr ⟨'@', hD, by simp⟩
              simp [hat]
      · have hnp : ¬ schemeChars <+: uri := fun hp => h3 ((leadsWith_iff _ _).mpr hp)
        rw [wget_validate_uri, if_neg h1, if_neg h2, if_neg h3]
        exact iff_of_true rfl (Or.inr (Or.inl hnp))

/-- C9: for a legacy argument not beginning with `http`: with a `:` present
the composed URL is `http://` ++ (text before the first `:`) ++ `/` ++ (text
after it); with no `:` the host comes from `httpserverip`, falling back to
`serverip`, and the whole argument is the path; with neither variable set
the normalizer fails.  The capacity hypotheses say the composed URL (plus
terminator) fits the destination buffer. -/
theorem parse_legacy_composition (arg : List Char) (rem : Nat)
    (envH envS : Option (List Char))
    (hn : leadsWith httpChars arg = false) :
    (∀ b c a, splitAtFirst (fun x => x == ':') arg = some (b, c, a) →
       b.length + a.length + 9 ≤ rem →
       parse_legacy_arg arg rem envH envS = some (schemeChars ++ b ++ '/' :: a)) ∧
    (splitAtFirst (fun x => x == ':') arg = none →
      (∀ h, envH = some h → h.length + arg.length + 9 ≤ rem →
         parse_legacy_arg arg rem envH envS = some (schemeChars ++ h ++ '/' :: arg)) ∧
      (envH = none → ∀ h, envS = some h → h.length + arg.length + 9 ≤ rem →
         parse_legacy_arg arg rem envH envS = some (schemeChars ++ h ++ '/' :: arg)) ∧
      (envH = none → envS = none → parse_legacy_arg arg rem envH envS = none)) := by
  refine ⟨?_, fun hsp => ⟨?_, ?_, ?_⟩⟩
  · intro b c a hsp hcap
    simp only [parse_legacy_arg, hn, Bool.false_eq_true, if_false, hsp]
    split_ifs with g1 g2 g3 g4 g5 <;> first | rfl | (exfalso; omega)
  · intro h hH hcap
    subst hH
    simp only [parse_legacy_arg, hn, Bool.false_eq_true, if_false, hsp]
    split_ifs with g1 g2 g3 g4 g5 <;> first | rfl | (exfalso; omega)
  · intro hH h hS hcap
    subst hH; subst hS
    simp only [parse_legacy_arg, hn, Bool.false_eq_true, if_false, hsp]
    split_ifs with g1 g2 g3 g4 g5 <;> first | rfl | (exfalso; omega)
  · intro hH hS
    subst hH; subst hS
    simp only [parse_legacy_arg, hn, Bool.false_eq_true, if_false, hsp]
    split_ifs <;> rfl

/-- Witness for C9: `host:path/to/file` composes to
`http://host/path/to/file`; `myfile.img` with only `serverip = 10.0.0.1`
composes to `http://10.0.0.1/myfile.img`; `myfile.img` with neither
variable set fails. -/
theorem parse_legacy_composition_witness :
    parse_legacy_arg ("host:path/to/file".data) 1024 none none =
      some (schemeChars ++ "host".data ++ '/' :: "path/to/file".data) ∧
    parse_legacy_arg ("myfile.img".data) 1024 none (some ("10.0.0.1".data)) =
      some (schemeChars ++ "10.0.0.1".data ++ '/' :: "myfile.img".data) ∧
    parse_legacy_arg ("myfile.img".data) 1024 none none = none :=
  ⟨(parse_legacy_composition ("host:path/to/file".data) 1024 none none rfl).1
      ("host".data) ':' ("path/to/file".data) rfl (by decide),
   ((parse_legacy_composition ("myfile.img".data) 1024 none
      (some ("10.0.0.1".data)) rfl).2 rfl).2.1 rfl ("10.0.0.1".data) rfl (by decide),
   ((parse_legacy_composition ("myfile.img".data) 1024 none none rfl).2 rfl).2.2
      rfl rfl⟩

/-- C7 (code bug): an argument beginning with `http` whose length equals the
destination capacity is accepted, not rejected — `httpX` with capacity 5
returns success with the silently truncated URL `http`, because the
overflow guard tests `n > rem` while `snprintf` already truncates at
`n == rem`. -/
theorem parse_legacy_truncation_bug :
    parse_legacy_arg ("httpX".data) 5 none none = some ("http".data) ∧
    "http".data ≠ "httpX".data ∧
    ("httpX".data).length = 5 :=
  ⟨rfl, by decide, rfl⟩

end Wget
